import Mathlib

set_option maxRecDepth 100000

/-!
Verification of the prompt-version-hub backend services
(`backend/app/services/prompts.py`, `backend/app/services/ab.py`,
`backend/app/services/kpis.py`, `backend/app/utils/diff.py`)
as a shallow embedding in Lean 4.

The relational store is modelled as explicit in-memory lists of rows;
SQLAlchemy queries become list traversals in insertion order, which is the
row order a `.first()` call without `order_by` observes.  Machine integers
are `Nat` with explicit `% 2^32` where the SHA-256 rounds overflow.
Fallible service functions return `Except Err`, where raising an exception
before any commit leaves the store unchanged.
-/

/-- Python exception classes raised by the services. -/
inductive Err where
  | lookupError      -- LookupError ("not found" / invisible)
  | permissionError  -- PermissionError (not owner)
  | valueError       -- ValueError (invalid argument / blocked delete)
deriving DecidableEq, Repr

/-! ## SHA-256 (FIPS 180-4), as used by `hashlib.sha256` in `choose_variant`.

`choose_variant` hashes `user_id.encode()` (UTF-8 bytes) and interprets the
hex digest as an unsigned integer; below the digest is produced directly as
the 256-bit big-endian natural number, which equals `int(hexdigest, 16)`. -/

namespace SHA256

def M32 : Nat := 4294967296

def rotr (n x : Nat) : Nat := ((x >>> n) ||| (x <<< (32 - n))) % M32

def bigSigma0 (x : Nat) : Nat := rotr 2 x ^^^ rotr 13 x ^^^ rotr 22 x
def bigSigma1 (x : Nat) : Nat := rotr 6 x ^^^ rotr 11 x ^^^ rotr 25 x
def smallSigma0 (x : Nat) : Nat := rotr 7 x ^^^ rotr 18 x ^^^ (x >>> 3)
def smallSigma1 (x : Nat) : Nat := rotr 17 x ^^^ rotr 19 x ^^^ (x >>> 10)
def chFn (x y z : Nat) : Nat := (x &&& y) ^^^ ((x ^^^ 4294967295) &&& z)
def majFn (x y z : Nat) : Nat := (x &&& y) ^^^ (x &&& z) ^^^ (y &&& z)

/-- The 64 round constants of FIPS 180-4 §4.2.2, written in decimal. -/
def K : List Nat :=
  [1116352408, 1899447441, 3049323471, 3921009573, 961987163, 1508970993,
   2453635748, 2870763221, 3624381080, 310598401, 607225278, 1426881987,
   1925078388, 2162078206, 2614888103, 3248222580, 3835390401, 4022224774,
   264347078, 604807628, 770255983, 1249150122, 1555081692, 1996064986,
   2554220882, 2821834349, 2952996808, 3210313671, 3336571891, 3584528711,
   113926993, 338241895, 666307205, 773529912, 1294757372, 1396182291,
   1695183700, 1986661051, 2177026350, 2456956037, 2730485921, 2820302411,
   3259730800, 3345764771, 3516065817, 3600352804, 4094571909, 275423344,
   430227734, 506948616, 659060556, 883997877, 958139571, 1322822218,
   1537002063, 1747873779, 1955562222, 2024104815, 2227730452, 2361852424,
   2428436474, 2756734187, 3204031479, 3329325298]

structure Hs where
  a : Nat
  b : Nat
  c : Nat
  d : Nat
  e : Nat
  f : Nat
  g : Nat
  h : Nat
deriving DecidableEq, Repr

/-- The initial hash value of FIPS 180-4 §5.3.3, written in decimal. -/
def H0 : Hs :=
  ⟨1779033703, 3144134277, 1013904242, 2773480762,
   1359893119, 2600822924, 528734635, 1541459225⟩

def round (st : Hs) (kw : Nat × Nat) : Hs :=
  let t1 := (st.h + bigSigma1 st.e + chFn st.e st.f st.g + kw.1 + kw.2) % M32
  let t2 := (bigSigma0 st.a + majFn st.a st.b st.c) % M32
  ⟨(t1 + t2) % M32, st.a, st.b, st.c, (st.d + t1) % M32, st.e, st.f, st.g⟩

/-- Message-schedule extension: append `W[t] = σ1 W[t-2] + W[t-7] + σ0 W[t-15] + W[t-16]`. -/
def schedStep (w : List Nat) : List Nat :=
  w ++ [(smallSigma1 (w.getD (w.length - 2) 0) + w.getD (w.length - 7) 0 +
         smallSigma0 (w.getD (w.length - 15) 0) + w.getD (w.length - 16) 0) % M32]

def schedule (w : List Nat) : List Nat :=
  (List.range 48).foldl (fun acc _ => schedStep acc) w

def compress (st : Hs) (block : List Nat) : Hs :=
  let w := schedule block
  let r := (K.zip w).foldl round st
  ⟨(st.a + r.a) % M32, (st.b + r.b) % M32, (st.c + r.c) % M32, (st.d + r.d) % M32,
   (st.e + r.e) % M32, (st.f + r.f) % M32, (st.g + r.g) % M32, (st.h + r.h) % M32⟩

/-- Big-endian 32-bit words from a byte list (length a multiple of 4). -/
def toWords : List Nat → List Nat
  | a :: b :: c :: d :: rest => (((a * 256 + b) * 256 + c) * 256 + d) :: toWords rest
  | _ => []

/-- Split a word list into 16-word blocks.  Structural recursion on a fuel
argument (one unit per word amply covers one block per 16 words), so that the
function evaluates by kernel reduction. -/
def chunk16F : Nat → List Nat → List (List Nat)
  | _, [] => []
  | 0, l => [l]
  | fuel + 1, x :: rest => ((x :: rest).take 16) :: chunk16F fuel ((x :: rest).drop 16)

def chunk16 (l : List Nat) : List (List Nat) := chunk16F l.length l

/-- Big-endian bytes of the 64-bit message bit length. -/
def lenBytes (n : Nat) : List Nat :=
  [n >>> 56 % 256, n >>> 48 % 256, n >>> 40 % 256, n >>> 32 % 256,
   n >>> 24 % 256, n >>> 16 % 256, n >>> 8 % 256, n % 256]

/-- FIPS 180-4 padding: `0x80`, zeros to 56 mod 64, then the bit length. -/
def pad (msg : List Nat) : List Nat :=
  let l := msg.length
  msg ++ [0x80] ++ List.replicate ((56 + 64 - (l + 1) % 64) % 64) 0 ++ lenBytes (8 * l)

/-- SHA-256 digest of a byte sequence, as a 256-bit natural number. -/
def digest (msg : List Nat) : Nat :=
  let hf := (chunk16 (toWords (pad msg))).foldl compress H0
  ((((((hf.a * M32 + hf.b) * M32 + hf.c) * M32 + hf.d) * M32 + hf.e) * M32 + hf.f) * M32 + hf.g) * M32 + hf.h

end SHA256

/-- UTF-8 encoding of one character (what Python `str.encode()` produces). -/
def utf8Bytes (c : Char) : List Nat :=
  let n := c.toNat
  if n < 0x80 then [n]
  else if n < 0x800 then [0xC0 + n / 64, 0x80 + n % 64]
  else if n < 0x10000 then [0xE0 + n / 4096, 0x80 + n / 64 % 64, 0x80 + n % 64]
  else [0xF0 + n / 262144, 0x80 + n / 4096 % 64, 0x80 + n / 64 % 64, 0x80 + n % 64]

def strBytes (s : String) : List Nat := s.data.flatMap utf8Bytes

/-- `int(hashlib.sha256(s.encode()).hexdigest(), 16)`. -/
def sha256Nat (s : String) : Nat := SHA256.digest (strBytes s)

example : sha256Nat "abc" =
    0xba7816bf8f01cfea414140de5dae2223b00361a396177a9cb410ff61f20015ad := by decide

example : sha256Nat "" =
    0xe3b0c44298fc1c149afbf4c8996fb92427ae41e4649b934ca495991b7852b855 := by decide

/-! ## Data model

Row types for the five tables the claims touch (`models/prompt.py`,
`models/deployment.py`, `models/usage.py`, `models/ab.py`), restricted to the
columns the embedded services read or write.  Weight mappings are association
lists in insertion order (Python dicts iterate in insertion order); keys are
the numeric versions (`set_policy` normalises keys through `str(int(k))`, and
weights are positive by the same normalisation, so `Nat` values model them). -/

/-- A `prompts` row; `variable_names` models the `variables` column
(`variables` is not a usable field name in Lean 4). -/
structure Prompt where
  id : Nat
  name : String
  template : String
  variable_names : List String
  version : Nat
  created_by : Nat
  active : Bool
  is_public : Bool
deriving DecidableEq, Repr

structure Deployment where
  id : Nat
  prompt_id : Nat
  environment : String
deriving DecidableEq, Repr

structure UsageEvent where
  id : Nat
  prompt_id : Nat
  success : Bool
deriving DecidableEq, Repr

structure ABPolicy where
  id : Nat
  prompt_name : String
  weights : List (Nat × Nat)
  created_by : Nat
  is_public : Bool
deriving DecidableEq, Repr

structure ABAssignment where
  experiment_name : String
  prompt_name : String
  user_id : String
  version : Nat
deriving DecidableEq, Repr

/-- The relational store: table contents in insertion order, plus the next
auto-increment primary keys handed out on insert. -/
structure DB where
  prompts : List Prompt
  deployments : List Deployment
  policies : List ABPolicy
  assignments : List ABAssignment
  usage_events : List UsageEvent
  nextPromptId : Nat
  nextPolicyId : Nat
deriving DecidableEq, Repr

def emptyDB : DB := ⟨[], [], [], [], [], 0, 0⟩

/-! ## A/B experiment engine (`services/ab.py`) -/

def totalW (w : List (Nat × Nat)) : Nat := (w.map (fun p => p.2)).sum

/-- Key order for `sorted(weights.items(), key=lambda x: int(x[0]))`. -/
def pairLE (a b : Nat × Nat) : Prop := a.1 ≤ b.1

instance : DecidableRel pairLE := fun a b => Nat.decLe a.1 b.1

instance : IsTotal (Nat × Nat) pairLE := ⟨fun a b => Nat.le_total a.1 b.1⟩

instance : IsTrans (Nat × Nat) pairLE := ⟨fun _ _ _ hab hbc => Nat.le_trans hab hbc⟩

/-- `sorted(weights.items(), key=lambda x: int(x[0]))` — a stable sort by
ascending numeric key, as Python's `sorted` is. -/
def sortPairs (w : List (Nat × Nat)) : List (Nat × Nat) :=
  List.insertionSort pairLE w

/-- The cumulative-sum loop of `choose_variant`: returns the first version
whose running cumulative weight exceeds `bucket`, or `none` if the loop
falls through. -/
def chooseLoop (bucket : Nat) : Nat → List (Nat × Nat) → Option Nat
  | _, [] => none
  | c, (v, wt) :: rest =>
      if bucket < c + wt then some v else chooseLoop bucket (c + wt) rest

/-- `choose_variant(user_id, weights)`.  `none` models the `StopIteration`
raised by `next(iter({}.keys()))` on an empty mapping. -/
def choose_variant (user_id : String) (weights : List (Nat × Nat)) : Option Nat :=
  if totalW weights = 0 then weights.head?.map (fun p => p.1)
  else
    let bucket := sha256Nat user_id % totalW weights
    match chooseLoop bucket 0 (sortPairs weights) with
    | some v => some v
    | none => weights.head?.map (fun p => p.1)

/-- The policy query in `assign`: first row matching
`prompt_name == X and (created_by == requester or is_public)`
(`.first()` with no `order_by`, i.e. table order). -/
def findPolicy (db : DB) (prompt_name : String) (requester_id : Nat) : Option ABPolicy :=
  db.policies.find? (fun p =>
    p.prompt_name == prompt_name && (p.created_by == requester_id || p.is_public))

def findAssignment (db : DB) (experiment_name prompt_name user_id : String) : Option ABAssignment :=
  db.assignments.find? (fun a =>
    a.experiment_name == experiment_name && a.prompt_name == prompt_name &&
      a.user_id == user_id)

/-- `set_policy(db, prompt_name, weights, user_id, is_public)`: validates that
every weight is positive, then upserts by `(prompt_name, created_by)`. -/
def set_policy (db : DB) (prompt_name : String) (weights : List (Nat × Nat))
    (user_id : Nat) (is_public : Bool) : Except Err (ABPolicy × DB) :=
  if weights.any (fun p => p.2 == 0) then .error .valueError
  else
    match db.policies.find? (fun p => p.prompt_name == prompt_name && p.created_by == user_id) with
    | none =>
        let pol : ABPolicy := ⟨db.nextPolicyId, prompt_name, weights, user_id, is_public⟩
        .ok (pol, { db with policies := db.policies ++ [pol],
                            nextPolicyId := db.nextPolicyId + 1 })
    | some pol =>
        let pol' := { pol with weights := weights, is_public := is_public }
        let pols := db.policies.map (fun q => if q.id == pol.id then pol' else q)
        .ok (pol', { db with policies := pols })

/-- `assign(db, experiment_name, prompt_name, user_id, requester_id)`. -/
def assign (db : DB) (experiment_name prompt_name user_id : String)
    (requester_id : Nat) : Except Err (Nat × DB) :=
  match findPolicy db prompt_name requester_id with
  | none => .error .lookupError
  | some policy =>
    if policy.weights = [] then .error .lookupError
    else
      match findAssignment db experiment_name prompt_name user_id with
      | some existing => .ok (existing.version, db)
      | none =>
        match choose_variant user_id policy.weights with
        | some version =>
            .ok (version, { db with assignments :=
              db.assignments ++ [⟨experiment_name, prompt_name, user_id, version⟩] })
        | none => .error .valueError

/-! ## Experiments overview (`services/kpis.py`, `get_experiments`)

Python floats are modelled as exact rationals; the discrepancies the claims
turn on (dividing by 100 versus normalising by the weight total) are far
larger than any floating-point rounding. -/

structure Arm where
  version : Nat
  weight : ℚ
  assignment_count : Nat
  success_rate : Option ℚ
deriving DecidableEq, Repr

structure ExperimentSummary where
  experiment : String
  prompt : String
  arms : List Arm
deriving DecidableEq, Repr

/-- The per-arm success-rate query: find the `(name, version)` prompt row,
then `successes / total` over its usage events, `None` when there is no such
prompt or no events. -/
def successRateFor (db : DB) (name : String) (version : Nat) : Option ℚ :=
  match db.prompts.find? (fun p => p.name == name && p.version == version) with
  | none => none
  | some prompt =>
    let evs := db.usage_events.filter (fun e => e.prompt_id == prompt.id)
    if evs.length = 0 then none
    else some (((evs.filter (fun e => e.success)).length : ℚ) / (evs.length : ℚ))

/-- One arm of `get_experiments`; the weight is
`float(weight) / 100.0`  ("Convert to decimal (0.5 instead of 50)"). -/
def armFor (db : DB) (pname : String) (vw : Nat × Nat) : Arm :=
  { version := vw.1
    weight := (vw.2 : ℚ) / 100
    assignment_count := (db.assignments.filter (fun a =>
      a.prompt_name == pname && a.version == vw.1)).length
    success_rate := successRateFor db pname vw.1 }

def get_experiments (db : DB) : List ExperimentSummary :=
  db.policies.map (fun policy =>
    { experiment := policy.prompt_name
      prompt := policy.prompt_name
      arms := policy.weights.map (armFor db policy.prompt_name) })

/-! ## Claims C1 and C9: `choose_variant` -/

theorem totalW_cons (p : Nat × Nat) (l : List (Nat × Nat)) :
    totalW (p :: l) = p.2 + totalW l := by
  simp [totalW]

theorem totalW_sortPairs (w : List (Nat × Nat)) : totalW (sortPairs w) = totalW w :=
  List.Perm.sum_eq (List.Perm.map _ (List.perm_insertionSort pairLE w))

/-- The cumulative-sum loop selects exactly the first entry whose cumulative
weight exceeds the bucket, provided the bucket lies below the total. -/
theorem chooseLoop_finds (bucket : Nat) (l : List (Nat × Nat)) :
    ∀ c : Nat, c ≤ bucket → bucket < c + totalW l →
    ∃ i vw, l[i]? = some vw ∧ chooseLoop bucket c l = some vw.1 ∧
      bucket < c + totalW (l.take (i + 1)) ∧
      ∀ j < i, c + totalW (l.take (j + 1)) ≤ bucket := by
  induction l with
  | nil =>
      intro c hle hlt
      simp [totalW] at hlt
      omega
  | cons p rest ih =>
      intro c hle hlt
      obtain ⟨v, wt⟩ := p
      by_cases hb : bucket < c + wt
      · refine ⟨0, (v, wt), by simp, by simp [chooseLoop, hb], ?_, by omega⟩
        simpa [totalW] using hb
      · push_neg at hb
        have hlt' : bucket < (c + wt) + totalW rest := by
          rw [totalW_cons] at hlt; omega
        obtain ⟨i, vw, hget, hloop, htake, hprev⟩ := ih (c + wt) hb hlt'
        refine ⟨i + 1, vw, by simpa using hget, ?_, ?_, ?_⟩
        · simpa [chooseLoop, if_neg (by omega : ¬ bucket < c + wt)] using hloop
        · rw [List.take_succ_cons, totalW_cons]; omega
        · intro j hj
          cases j with
          | zero =>
              simp only [List.take_succ_cons, List.take_zero, totalW_cons]
              simp [totalW]; omega
          | succ j' =>
              have := hprev j' (by omega)
              rw [List.take_succ_cons, totalW_cons]
              omega

/-- C1: for any subject and any weights with positive total, `choose_variant`
reduces the SHA-256 hash of the subject's UTF-8 bytes modulo the weight total
to a bucket, walks the pairs sorted by ascending version with a running
cumulative sum, and returns the first version whose cumulative sum exceeds
the bucket; and the function is deterministic (identical inputs give the
identical version). -/
theorem choose_variant_spec (s : String) (w : List (Nat × Nat)) (hw : 0 < totalW w) :
    ∃ v i vw,
      choose_variant s w = some v ∧
      List.Pairwise (fun a b : Nat × Nat => a.1 ≤ b.1) (sortPairs w) ∧
      (sortPairs w).Perm w ∧
      (sortPairs w)[i]? = some vw ∧ v = vw.1 ∧
      sha256Nat s % totalW w < totalW ((sortPairs w).take (i + 1)) ∧
      (∀ j < i, totalW ((sortPairs w).take (j + 1)) ≤ sha256Nat s % totalW w) ∧
      choose_variant s w = choose_variant s w := by
  have hperm : (sortPairs w).Perm w := List.perm_insertionSort pairLE w
  have hsort : List.Pairwise (fun a b : Nat × Nat => a.1 ≤ b.1) (sortPairs w) :=
    (List.sorted_insertionSort pairLE w).imp (fun hab => hab)
  have hbound : sha256Nat s % totalW w < totalW (sortPairs w) := by
    rw [totalW_sortPairs]; exact Nat.mod_lt _ hw
  obtain ⟨i, vw, hget, hloop, htake, hprev⟩ :=
    chooseLoop_finds (sha256Nat s % totalW w) (sortPairs w) 0 (Nat.zero_le _)
      (by simpa using hbound)
  refine ⟨vw.1, i, vw, ?_, hsort, hperm, hget, rfl,
    by simpa using htake, fun j hj => by simpa using hprev j hj, rfl⟩
  unfold choose_variant
  rw [if_neg (by omega)]
  simp only [hloop]

/-- C1 witness at subject `"alice"`, weights `{1 ↦ 30, 2 ↦ 70}`. -/
theorem choose_variant_spec_witness :
    (choose_variant "alice" [(1, 30), (2, 70)]).isSome = true := by
  obtain ⟨v, i, vw, hv, -, -, -, -, -, -, -⟩ :=
    choose_variant_spec "alice" [(1, 30), (2, 70)] (by decide)
  rw [hv]; rfl

/-- C9: on a non-empty mapping with positive weights the cumulative loop
itself selects a version (the trailing fallback is unreachable),
`choose_variant` terminates with that version, and the version is one of the
mapping's keys. -/
theorem choose_variant_mem (s : String) (w : List (Nat × Nat))
    (hne : w ≠ []) (hpos : ∀ p ∈ w, 0 < p.2) :
    ∃ v, chooseLoop (sha256Nat s % totalW w) 0 (sortPairs w) = some v ∧
      choose_variant s w = some v ∧ v ∈ w.map (fun p => p.1) := by
  have hw : 0 < totalW w := by
    match w, hne with
    | p :: rest, _ =>
      have := hpos p (by simp)
      rw [totalW_cons]; omega
  have hbound : sha256Nat s % totalW w < totalW (sortPairs w) := by
    rw [totalW_sortPairs]; exact Nat.mod_lt _ hw
  obtain ⟨i, vw, hget, hloop, -, -⟩ :=
    chooseLoop_finds (sha256Nat s % totalW w) (sortPairs w) 0 (Nat.zero_le _)
      (by simpa using hbound)
  have hmemw : vw ∈ w := by
    have hmem : vw ∈ sortPairs w := List.getElem?_mem hget
    exact (List.mem_insertionSort pairLE).mp hmem
  refine ⟨vw.1, hloop, ?_, List.mem_map_of_mem _ hmemw⟩
  unfold choose_variant
  rw [if_neg (by omega)]
  simp only [hloop]

/-- C9 witness at subject `"bob"`, weights `{3 ↦ 5}`. -/
theorem choose_variant_mem_witness :
    (choose_variant "bob" [(3, 5)]).isSome = true := by
  obtain ⟨v, -, hv, -⟩ := choose_variant_mem "bob" [(3, 5)] (by decide) (by decide)
  rw [hv]; rfl

/-! ## Version store (`services/prompts.py`) -/

structure PromptCreate where
  name : String
  template : String
  variable_names : List String
  is_public : Bool
deriving DecidableEq, Repr

structure PromptUpdate where
  template : String
  variable_names : List String
deriving DecidableEq, Repr

def promptsOf (db : DB) (name : String) : List Prompt :=
  db.prompts.filter (fun p => p.name == name)

/-- `_is_visible(prompt, viewer_id)`. -/
def isVisible (p : Prompt) (viewer_id : Nat) : Bool :=
  p.created_by == viewer_id || p.is_public

/-- `_require_latest_prompt`: `.order_by(version desc).first()`, i.e. the
first row attaining the maximal version among the name's rows. -/
def maxByVersion : List Prompt → Option Prompt
  | [] => none
  | p :: rest =>
    match maxByVersion rest with
    | none => some p
    | some q => if p.version < q.version then some q else some p

def latestPrompt (db : DB) (name : String) : Option Prompt :=
  maxByVersion (promptsOf db name)

/-- `get_version(db, name, version, viewer_id)`. -/
def get_version (db : DB) (name : String) (version : Nat) (viewer_id : Nat) : Option Prompt :=
  match db.prompts.find? (fun p => p.name == name && p.version == version) with
  | none => none
  | some p => if isVisible p viewer_id then some p else none

/-- `create_prompt(db, user_id, payload)`. -/
def create_prompt (db : DB) (user_id : Nat) (payload : PromptCreate) : Except Err (Prompt × DB) :=
  if db.prompts.any (fun p => p.name == payload.name) then .error .valueError
  else
    let p : Prompt := ⟨db.nextPromptId, payload.name, payload.template,
      payload.variable_names, 1, user_id, true, payload.is_public⟩
    .ok (p, { db with prompts := db.prompts ++ [p], nextPromptId := db.nextPromptId + 1 })

/-- The effect of the bulk update on one row: flip `active` off when the row
belongs to `name` and is active. -/
def flipActive (name : String) (r : Prompt) : Prompt :=
  if r.name == name && r.active then { r with active := false } else r

/-- The bulk update flipping every active row of `name` to inactive. -/
def deactivateName (prompts : List Prompt) (name : String) : List Prompt :=
  prompts.map (flipActive name)

/-- `update_prompt(db, name, user_id, payload)`. -/
def update_prompt (db : DB) (name : String) (user_id : Nat) (payload : PromptUpdate) :
    Except Err (Prompt × DB) :=
  match latestPrompt db name with
  | none => .error .lookupError
  | some latest =>
    if latest.created_by ≠ user_id then .error .permissionError
    else
      let p : Prompt := ⟨db.nextPromptId, name, payload.template, payload.variable_names,
        latest.version + 1, user_id, true, latest.is_public⟩
      .ok (p, { db with prompts := deactivateName db.prompts name ++ [p],
                        nextPromptId := db.nextPromptId + 1 })

/-- `rollback(db, name, target_version, user_id)`. -/
def rollback (db : DB) (name : String) (target_version : Nat) (user_id : Nat) :
    Except Err (Prompt × DB) :=
  match latestPrompt db name with
  | none => .error .lookupError
  | some latest =>
    if latest.created_by ≠ user_id then .error .permissionError
    else
      match get_version db name target_version user_id with
      | none => .error .lookupError
      | some target =>
        let p : Prompt := ⟨db.nextPromptId, name, target.template, target.variable_names,
          latest.version + 1, user_id, true, latest.is_public⟩
        .ok (p, { db with prompts := deactivateName db.prompts name ++ [p],
                          nextPromptId := db.nextPromptId + 1 })

/-- `delete_prompt(db, name)`. -/
def delete_prompt (db : DB) (name : String) : Except Err (Nat × DB) :=
  let prompt_ids := (db.prompts.filter (fun p => p.name == name)).map (fun p => p.id)
  if !prompt_ids.isEmpty && db.deployments.any (fun d => prompt_ids.contains d.prompt_id) then
    .error .valueError
  else
    .ok ((db.prompts.filter (fun p => p.name == name)).length,
         { db with prompts := db.prompts.filter (fun p => !(p.name == name)) })

/-- `set_visibility(db, name, user_id, make_public)`; the returned row is the
refreshed latest row. -/
def set_visibility (db : DB) (name : String) (user_id : Nat) (make_public : Bool) :
    Except Err (Prompt × DB) :=
  match latestPrompt db name with
  | none => .error .lookupError
  | some latest =>
    if latest.created_by ≠ user_id then .error .permissionError
    else if latest.is_public == make_public then .ok (latest, db)
    else
      let ps := db.prompts.map (fun r =>
        if r.name == name then { r with is_public := make_public } else r)
      .ok ({ latest with is_public := make_public }, { db with prompts := ps })

/-! ## Unified diff (`utils/diff.py`) -/

/-- Python `str.splitlines(keepends=True)` restricted to the common line
terminators `\n`, `\r`, `\r\n`. -/
def splitLinesAux : List Char → List Char → List String
  | [], acc => if acc.isEmpty then [] else [String.mk acc.reverse]
  | '\r' :: '\n' :: rest, acc => String.mk (acc.reverse ++ ['\r', '\n']) :: splitLinesAux rest []
  | '\r' :: rest, acc => String.mk (acc.reverse ++ ['\r']) :: splitLinesAux rest []
  | '\n' :: rest, acc => String.mk (acc.reverse ++ ['\n']) :: splitLinesAux rest []
  | c :: rest, acc => splitLinesAux rest (c :: acc)

def splitlines (s : String) : List String := splitLinesAux s.data []

def commonPrefixLen : List String → List String → Nat
  | a :: as, b :: bs => if a = b then commonPrefixLen as bs + 1 else 0
  | _, _ => 0

/-- Modelled from the spec: Python's `difflib.unified_diff` (standard
library, not part of this repository), as the spec describes it — "a
standard unified-diff text block with the two version labels as file
headers", where equal inputs yield no groups and hence no output at all.
The model trims the common prefix and suffix and renders the single middle
change as one hunk with up to three context lines; for equal line sequences
the output is the empty string, exactly as in `difflib`. -/
def unified_diff (a b : List String) (fromfile tofile : String) : String :=
  let p := commonPrefixLen a b
  let s := commonPrefixLen (a.drop p).reverse (b.drop p).reverse
  let amid := (a.drop p).take (a.length - p - s)
  let bmid := (b.drop p).take (b.length - p - s)
  if amid.isEmpty && bmid.isEmpty then ""
  else
    let start := p - 3
    let ctxPre := (a.take p).drop start
    let ctxPost := (a.drop (p + amid.length)).take 3
    let header := "--- " ++ fromfile ++ "\n" ++ "+++ " ++ tofile ++ "\n"
    let hunkHead := "@@ -" ++ toString (start + 1) ++ "," ++
      toString (ctxPre.length + amid.length + ctxPost.length) ++ " +" ++
      toString (start + 1) ++ "," ++
      toString (ctxPre.length + bmid.length + ctxPost.length) ++ " @@\n"
    let body := ctxPre.map (" " ++ ·) ++ amid.map ("-" ++ ·) ++
      bmid.map ("+" ++ ·) ++ ctxPost.map (" " ++ ·)
    header ++ hunkHead ++ String.join body

/-- `unified_diff_text(a, b, from_label, to_label)`. -/
def unified_diff_text (a b : String) (from_label to_label : String) : String :=
  unified_diff (splitlines a) (splitlines b) from_label to_label

/-- `diff_versions(db, name, from_version, to_version, viewer_id)`. -/
def diff_versions (db : DB) (name : String) (from_version to_version : Nat)
    (viewer_id : Nat) : Except Err String :=
  match get_version db name from_version viewer_id,
        get_version db name to_version viewer_id with
  | some a, some b =>
      .ok (unified_diff_text a.template b.template
        (name ++ "@" ++ toString from_version) (name ++ "@" ++ toString to_version))
  | _, _ => .error .lookupError

/-! ## Clone (`clone_prompt` and `_generate_unique_name`) -/

def isSlugChar (c : Char) : Bool := c.isAlpha || c.isDigit || c == '_' || c == '-'

/-- `re.sub(r"[^a-zA-Z0-9_-]+", "-", base)`: collapse each maximal run of
non-slug characters into a single dash.  Structural recursion on a fuel
argument (one unit per character always suffices). -/
def collapseF : Nat → List Char → List Char
  | _, [] => []
  | 0, l => l
  | fuel + 1, c :: rest =>
    if isSlugChar c then c :: collapseF fuel rest
    else '-' :: collapseF fuel (rest.dropWhile (fun d => !isSlugChar d))

/-- The slug computation of `_generate_unique_name`:
`re.sub(...).strip("-").lower()`, defaulting to `"prompt"` when empty. -/
def slugify (base : String) : String :=
  let collapsed := collapseF base.data.length base.data
  let stripped := ((collapsed.dropWhile (fun c => c == '-')).reverse.dropWhile
    (fun c => c == '-')).reverse
  let slug := String.mk (stripped.map Char.toLower)
  if slug = "" then "prompt" else slug

def nameTaken (db : DB) (n : String) : Bool := db.prompts.any (fun p => p.name == n)

/-- The candidate loop of `_generate_unique_name`: the slug itself, then
`slug-2`, `slug-3`, … until a free name is found.  The source loop is
unbounded; here the candidate list is bounded by the table size plus two,
which always reaches a free name since the candidates are pairwise distinct
strings.  `none` (candidate list exhausted) never occurs on distinct
candidates and makes the embedded clone fail instead of looping. -/
def generate_unique_name (db : DB) (base : String) : Option String :=
  let slug := slugify base
  (slug :: (List.range (db.prompts.length + 1)).map
    (fun i => slug ++ "-" ++ toString (i + 2))).find? (fun c => !nameTaken db c)

/-- `new_name.strip() if new_name else f"(source.name)-copy"` — note Python
truthiness: an empty `new_name` string also falls back to the `-copy` form. -/
def cloneBaseName (src_name : String) (new_name : Option String) : String :=
  match new_name with
  | some s => if s ≠ "" then s.trim else src_name ++ "-copy"
  | none => src_name ++ "-copy"

/-- `clone_prompt(db, source_name, viewer_id, new_name)`. -/
def clone_prompt (db : DB) (source_name : String) (viewer_id : Nat)
    (new_name : Option String) : Except Err (Prompt × DB) :=
  match latestPrompt db source_name with
  | none => .error .lookupError
  | some source =>
    if !isVisible source viewer_id then .error .lookupError
    else
      match generate_unique_name db (cloneBaseName source.name new_name) with
      | none => .error .valueError
      | some unique_name =>
        let p : Prompt := ⟨db.nextPromptId, unique_name, source.template,
          source.variable_names, 1, viewer_id, true, false⟩
        .ok (p, { db with prompts := db.prompts ++ [p],
                          nextPromptId := db.nextPromptId + 1 })

/-! ## Claims C2 and C4: `assign` -/

theorem choose_variant_isSome (s : String) (w : List (Nat × Nat)) (hne : w ≠ []) :
    (choose_variant s w).isSome = true := by
  obtain ⟨p, rest, rfl⟩ := List.exists_cons_of_ne_nil hne
  unfold choose_variant
  by_cases h : totalW (p :: rest) = 0
  · simp [h]
  · rw [if_neg h]
    cases hc : chooseLoop (sha256Nat s % totalW (p :: rest)) 0 (sortPairs (p :: rest)) <;>
      simp [hc]

/-- C2 (amended): provided the policy lookup succeeds with non-empty weights,
`assign` returns an existing assignment row's version with the store
untouched — regardless of what the policy's weights now are — and only when
no row exists does it compute a variant via `choose_variant` and persist
exactly one new row. -/
theorem assign_idempotent (db : DB) (experiment_name prompt_name user_id : String)
    (requester_id : Nat) (pol : ABPolicy)
    (hpol : findPolicy db prompt_name requester_id = some pol)
    (hw : pol.weights ≠ []) :
    (∀ a, findAssignment db experiment_name prompt_name user_id = some a →
        assign db experiment_name prompt_name user_id requester_id = .ok (a.version, db)) ∧
    (findAssignment db experiment_name prompt_name user_id = none →
        ∃ v, choose_variant user_id pol.weights = some v ∧
          assign db experiment_name prompt_name user_id requester_id =
            .ok (v, { db with assignments :=
              db.assignments ++ [⟨experiment_name, prompt_name, user_id, v⟩] })) := by
  constructor
  · intro a ha
    simp [assign, hpol, hw, ha]
  · intro hnone
    obtain ⟨v, hv⟩ := Option.isSome_iff_exists.mp
      (choose_variant_isSome user_id pol.weights hw)
    exact ⟨v, hv, by simp [assign, hpol, hw, hnone, hv]⟩

def dbC2a : DB := ⟨[], [], [⟨0, "p", [(1, 1)], 7, false⟩], [⟨"e", "p", "alice", 1⟩], [], 0, 1⟩

def dbC2b : DB := ⟨[], [], [⟨0, "p", [], 7, false⟩], [⟨"e", "p", "alice", 1⟩], [], 0, 1⟩

/-- C2 counterexample: an assignment row for `("e","p","alice")` exists with
version 1, but after `set_policy` replaces the policy's weights with the
empty mapping, `assign` raises `LookupError` instead of returning 1 — the
existing row is not returned unconditionally. -/
theorem assign_not_unconditional :
    set_policy dbC2a "p" [] 7 false = .ok (⟨0, "p", [], 7, false⟩, dbC2b) ∧
    findAssignment dbC2b "e" "p" "alice" = some ⟨"e", "p", "alice", 1⟩ ∧
    assign dbC2b "e" "p" "alice" 7 = .error .lookupError :=
  ⟨rfl, rfl, rfl⟩

def dbC2w : DB := ⟨[], [], [⟨0, "p", [(1, 30), (2, 70)], 7, false⟩],
  [⟨"e", "p", "alice", 2⟩], [], 0, 1⟩

/-- C2 witness: with a live policy, the stored version 2 is returned for
`"alice"` with the store unchanged (note `choose_variant` itself would pick
version 1 for this subject — the stored row wins). -/
theorem assign_idempotent_witness :
    assign dbC2w "e" "p" "alice" 7 = .ok (2, dbC2w) :=
  (assign_idempotent dbC2w "e" "p" "alice" 7 ⟨0, "p", [(1, 30), (2, 70)], 7, false⟩
    rfl (by decide)).1 ⟨"e", "p", "alice", 2⟩ rfl

/-- C4 (amended): `assign` resolves the policy as the *first stored row* (in
table order) matching "requester's own or public" — it does not prefer the
requester's own policy over an earlier public one — and it fails `NotFound`
exactly when no such row exists or the row found has empty weights. -/
theorem assign_first_policy (db : DB) (experiment_name prompt_name user_id : String)
    (requester_id : Nat) :
    (assign db experiment_name prompt_name user_id requester_id = .error .lookupError ↔
      findPolicy db prompt_name requester_id = none ∨
      ∃ pol, findPolicy db prompt_name requester_id = some pol ∧ pol.weights = []) ∧
    (∀ pol, findPolicy db prompt_name requester_id = some pol → pol.weights ≠ [] →
      findAssignment db experiment_name prompt_name user_id = none →
      ∃ v, choose_variant user_id pol.weights = some v ∧
        assign db experiment_name prompt_name user_id requester_id =
          .ok (v, { db with assignments :=
            db.assignments ++ [⟨experiment_name, prompt_name, user_id, v⟩] })) := by
  cases hpol : findPolicy db prompt_name requester_id with
  | none =>
      refine ⟨?_, ?_⟩
      · simp [assign, hpol]
      · intro pol h
        simp_all
  | some pol =>
      by_cases hw : pol.weights = []
      · refine ⟨?_, ?_⟩
        · constructor
          · intro _
            exact Or.inr ⟨pol, rfl, hw⟩
          · intro _
            simp [assign, hpol, hw]
        · intro pol' h1 h2
          injection h1 with h1
          subst h1
          exact absurd hw h2
      · refine ⟨?_, ?_⟩
        · constructor
          · intro herr
            exfalso
            cases ha : findAssignment db experiment_name prompt_name user_id with
            | some a => simp [assign, hpol, hw, ha] at herr
            | none =>
                obtain ⟨v, hv⟩ := Option.isSome_iff_exists.mp
                  (choose_variant_isSome user_id pol.weights hw)
                simp [assign, hpol, hw, ha, hv] at herr
          · rintro (h | ⟨pol', h1, h2⟩)
            · exact Option.noConfusion h
            · injection h1 with h1
              subst h1
              exact absurd h2 hw
        · intro pol' h1 h2 hnone
          injection h1 with h1
          subst h1
          obtain ⟨v, hv⟩ := Option.isSome_iff_exists.mp
            (choose_variant_isSome user_id pol.weights hw)
          exact ⟨v, hv, by simp [assign, hpol, hw, hnone, hv]⟩

def dbC4 : DB := ⟨[], [], [⟨0, "p", [(2, 1)], 99, true⟩, ⟨1, "p", [(1, 1)], 7, false⟩],
  [], [], 0, 2⟩

/-- C4 counterexample: requester 7 owns a policy for `"p"` whose only arm is
version 1 (so its weights can only ever choose version 1), yet because a
public policy owned by user 99 was stored first, `assign` hands subject
`"alice"` version 2 from the public policy's weights. -/
theorem assign_prefers_first_not_own :
    (dbC4.policies.filter (fun p => p.created_by == 7)).map (fun p => p.weights) =
      [[(1, 1)]] ∧
    choose_variant "alice" [(1, 1)] = some 1 ∧
    assign dbC4 "e" "p" "alice" 7 =
      .ok (2, { dbC4 with assignments := [⟨"e", "p", "alice", 2⟩] }) :=
  ⟨rfl, rfl, rfl⟩

def dbC4w : DB := ⟨[], [], [⟨0, "q", [(4, 2)], 3, false⟩], [], [], 0, 1⟩

/-- C4 witness: with a single own policy the first-match lookup is that
policy, and `assign` persists its chosen variant. -/
theorem assign_first_policy_witness :
    ∃ v, choose_variant "carol" [(4, 2)] = some v ∧
      assign dbC4w "x" "q" "carol" 3 =
        .ok (v, { dbC4w with assignments := [⟨"x", "q", "carol", v⟩] }) :=
  (assign_first_policy dbC4w "x" "q" "carol" 3).2 ⟨0, "q", [(4, 2)], 3, false⟩
    rfl (by decide) rfl

/-! ## Claim C8: `get_experiments` arm weights -/

/-- C8 (amended): for every stored policy, `experiments_overview` reports
each arm's weight as the *stated integer weight divided by 100* — a fraction
of 1 only when the policy's weights are percentages summing to 100 —
alongside that arm's live-recomputed assignment count and success rate. -/
theorem get_experiments_arms (db : DB) (i j : Nat) (pol : ABPolicy) (vw : Nat × Nat)
    (hpol : db.policies[i]? = some pol) (hvw : pol.weights[j]? = some vw) :
    ∃ e arm, (get_experiments db)[i]? = some e ∧ e.arms[j]? = some arm ∧
      e.experiment = pol.prompt_name ∧ e.prompt = pol.prompt_name ∧
      arm.version = vw.1 ∧ arm.weight = (vw.2 : ℚ) / 100 ∧
      arm.assignment_count = (db.assignments.filter (fun a =>
        a.prompt_name == pol.prompt_name && a.version == vw.1)).length ∧
      arm.success_rate = successRateFor db pol.prompt_name vw.1 := by
  refine ⟨⟨pol.prompt_name, pol.prompt_name, pol.weights.map (armFor db pol.prompt_name)⟩,
    armFor db pol.prompt_name vw, ?_, ?_, rfl, rfl, rfl, rfl, rfl, rfl⟩
  · simp [get_experiments, List.getElem?_map, hpol]
  · simp [List.getElem?_map, hvw]

def dbC8 : DB := ⟨[], [], [⟨0, "p", [(1, 3), (2, 7)], 7, false⟩], [], [], 0, 1⟩

/-- C8 counterexample: for the stored weights `{1 ↦ 3, 2 ↦ 7}` — a positive
scaling of `{1 ↦ 30, 2 ↦ 70}` — the reported arm weights are `3/100` and
`7/100`, not the normalized fractions `3/10` and `7/10`, and they do not sum
to 1. -/
theorem get_experiments_not_normalized :
    (get_experiments dbC8).map (fun e => e.arms.map (fun a => a.weight)) =
      [[3 / 100, 7 / 100]] ∧
    ¬ ((3 : ℚ) / 100 = 3 / 10) ∧ ¬ ((3 : ℚ) / 100 + 7 / 100 = 1) := by
  refine ⟨rfl, by norm_num, by norm_num⟩

/-- C8 witness at the policy of `dbC8`, arm index 0 (weight 3 ↦ reported
`3/100`). -/
theorem get_experiments_arms_witness :
    ∃ e arm, (get_experiments dbC8)[0]? = some e ∧ e.arms[0]? = some arm ∧
      e.experiment = "p" ∧ e.prompt = "p" ∧
      arm.version = 1 ∧ arm.weight = ((3 : Nat) : ℚ) / 100 ∧
      arm.assignment_count = (dbC8.assignments.filter (fun a =>
        a.prompt_name == "p" && a.version == 1)).length ∧
      arm.success_rate = successRateFor dbC8 "p" 1 :=
  get_experiments_arms dbC8 0 0 ⟨0, "p", [(1, 3), (2, 7)], 7, false⟩ (1, 3) rfl rfl


/-! ## Claim C7: `delete_prompt` -/

theorem delete_prompt_eq (db : DB) (name : String) :
    delete_prompt db name =
      (if (!((db.prompts.filter (fun p => p.name == name)).map (fun p => p.id)).isEmpty &&
          db.deployments.any (fun d =>
            ((db.prompts.filter (fun p => p.name == name)).map (fun p => p.id)).contains
              d.prompt_id)) = true then
        .error .valueError
      else
        .ok ((db.prompts.filter (fun p => p.name == name)).length,
             { db with prompts := db.prompts.filter (fun p => !(p.name == name)) })) := rfl

theorem delete_cond_iff (db : DB) (name : String) :
    (!((db.prompts.filter (fun p => p.name == name)).map (fun p => p.id)).isEmpty &&
      db.deployments.any (fun d =>
        ((db.prompts.filter (fun p => p.name == name)).map (fun p => p.id)).contains
          d.prompt_id)) = true ↔
      ∃ d ∈ db.deployments, ∃ p ∈ db.prompts, p.name = name ∧ d.prompt_id = p.id := by
  simp [List.any_eq_true, List.mem_map, List.mem_filter]
  constructor
  · rintro ⟨-, d, hd, q, ⟨hq, hqn⟩, hid⟩
    exact ⟨d, hd, q, hq, hqn, hid.symm⟩
  · rintro ⟨d, hd, q, hq, hqn, hid⟩
    exact ⟨⟨q, hq, hqn⟩, d, hd, q, ⟨hq, hqn⟩, hid.symm⟩

/-- C7: `delete_all_versions(name)` fails with a domain error (and deletes
nothing — an exception commits nothing) when any `Deployment` row references
any version row of `name`; otherwise it deletes exactly the name's version
rows and returns their count. -/
theorem delete_prompt_spec (db : DB) (name : String) :
    ((∃ d ∈ db.deployments, ∃ p ∈ db.prompts, p.name = name ∧ d.prompt_id = p.id) →
      delete_prompt db name = .error .valueError) ∧
    ((¬ ∃ d ∈ db.deployments, ∃ p ∈ db.prompts, p.name = name ∧ d.prompt_id = p.id) →
      delete_prompt db name =
        .ok ((db.prompts.filter (fun p => p.name == name)).length,
             { db with prompts := db.prompts.filter (fun p => !(p.name == name)) })) := by
  constructor
  · intro hP
    rw [delete_prompt_eq, if_pos ((delete_cond_iff db name).mpr hP)]
  · intro hnP
    rw [delete_prompt_eq, if_neg (fun hc => hnP ((delete_cond_iff db name).mp hc))]

def dbC7a : DB := ⟨[⟨0, "a", "t", [], 1, 5, true, false⟩, ⟨1, "a", "t2", [], 2, 5, true, false⟩],
  [⟨0, 0, "prod"⟩], [], [], [], 2, 0⟩

def dbC7b : DB := ⟨[⟨0, "a", "t", [], 1, 5, true, false⟩, ⟨1, "a", "t2", [], 2, 5, true, false⟩],
  [], [], [], [], 2, 0⟩

/-- C7 witness: with a deployment referencing version 1 of `"a"`, deletion
fails; with no deployments, both rows are deleted and counted. -/
theorem delete_prompt_spec_witness :
    delete_prompt dbC7a "a" = .error .valueError ∧
    delete_prompt dbC7b "a" = .ok (2, { dbC7b with prompts := [] }) :=
  ⟨(delete_prompt_spec dbC7a "a").1 (by decide),
   (delete_prompt_spec dbC7b "a").2 (by decide)⟩

/-! ## Claim C6: `set_visibility` -/

theorem Prompt_eta_is_public (r : Prompt) (b : Bool) (h : r.is_public = b) :
    ({ r with is_public := b } : Prompt) = r := by
  cases r
  subst h
  rfl

theorem set_visibility_eq (db : DB) (name : String) (user_id : Nat) (make_public : Bool)
    (L : Prompt) (hL : latestPrompt db name = some L) :
    set_visibility db name user_id make_public =
      (if L.created_by ≠ user_id then .error .permissionError
       else if L.is_public == make_public then .ok (L, db)
       else .ok ({ L with is_public := make_public },
         { db with prompts := db.prompts.map (fun r =>
             if r.name == name then { r with is_public := make_public } else r) })) := by
  unfold set_visibility
  rw [hL]

/-- C6: for an owner call, `set_visibility` rewrites exactly the name's rows,
setting `is_public` to the flag and touching no other field and no other
name (the whole store update is the stated row-wise map); a non-owner call
fails with `Forbidden`.  The hypothesis that the name's rows agree on
`is_public` with the latest row is the per-name visibility invariant the
code maintains (the spec: `is_public` is a property of the name), and makes
the early-return branch sound. -/
theorem set_visibility_spec (db : DB) (name : String) (user_id : Nat) (make_public : Bool)
    (L : Prompt) (hL : latestPrompt db name = some L)
    (hcons : ∀ r ∈ db.prompts, r.name = name → r.is_public = L.is_public) :
    (L.created_by = user_id →
      set_visibility db name user_id make_public =
        .ok ({ L with is_public := make_public },
             { db with prompts := db.prompts.map (fun r =>
                 if r.name == name then { r with is_public := make_public } else r) }) ∧
      ∀ r ∈ db.prompts.map (fun r =>
          if r.name == name then { r with is_public := make_public } else r),
        (r.name = name → r.is_public = make_public) ∧ (r.name ≠ name → r ∈ db.prompts)) ∧
    (L.created_by ≠ user_id →
      set_visibility db name user_id make_public = .error .permissionError) := by
  constructor
  · intro howner
    constructor
    · rw [set_visibility_eq db name user_id make_public L hL,
        if_neg (fun hne => hne howner)]
      by_cases hflag : L.is_public = make_public
      · rw [if_pos (by simp [hflag])]
        have hmap : db.prompts.map (fun r =>
            if r.name == name then { r with is_public := make_public } else r) =
            db.prompts := by
          conv_rhs => rw [← List.map_id db.prompts]
          refine List.map_congr_left (fun r hr => ?_)
          by_cases hn : r.name == name
          · rw [if_pos hn]
            exact Prompt_eta_is_public r make_public
              ((hcons r hr (beq_iff_eq.mp hn)).trans hflag)
          · rw [if_neg hn]; rfl
        rw [hmap, Prompt_eta_is_public L make_public hflag]
      · rw [if_neg (by simp [hflag])]
    · intro r hr
      obtain ⟨r0, hr0, rfl⟩ := List.mem_map.mp hr
      by_cases hn : r0.name == name
      · rw [if_pos hn]
        refine ⟨fun _ => rfl, fun hne => absurd (beq_iff_eq.mp hn) hne⟩
      · rw [if_neg hn]
        exact ⟨fun heq => absurd heq (by simpa using hn), fun _ => hr0⟩
  · intro hnon
    rw [set_visibility_eq db name user_id make_public L hL, if_pos hnon]

def dbC6 : DB := ⟨[⟨0, "a", "t", [], 1, 5, true, false⟩, ⟨1, "b", "u", [], 1, 9, true, false⟩,
  ⟨2, "a", "t2", [], 2, 5, true, false⟩], [], [], [], [], 3, 0⟩

/-- C6 witness: owner 5 publishes `"a"` — both `"a"` rows get the flag, the
`"b"` row is untouched — while non-owner 4 is rejected. -/
theorem set_visibility_spec_witness :
    set_visibility dbC6 "a" 5 true =
      .ok (⟨2, "a", "t2", [], 2, 5, true, true⟩,
        { dbC6 with prompts := [⟨0, "a", "t", [], 1, 5, true, true⟩,
            ⟨1, "b", "u", [], 1, 9, true, false⟩, ⟨2, "a", "t2", [], 2, 5, true, true⟩] }) ∧
    set_visibility dbC6 "a" 4 true = .error .permissionError :=
  ⟨((set_visibility_spec dbC6 "a" 5 true ⟨2, "a", "t2", [], 2, 5, true, false⟩ rfl
      (by decide)).1 rfl).1,
   (set_visibility_spec dbC6 "a" 4 true ⟨2, "a", "t2", [], 2, 5, true, false⟩ rfl
      (by decide)).2 (by decide)⟩

/-! ## Claim C5: rollback then diff -/

theorem maxByVersion_cons_ne_none (p : Prompt) (rest : List Prompt) :
    maxByVersion (p :: rest) ≠ none := by
  unfold maxByVersion
  cases maxByVersion rest
  · simp
  · dsimp only
    split <;> simp

theorem maxByVersion_mem : ∀ {l : List Prompt} {q : Prompt}, maxByVersion l = some q → q ∈ l := by
  intro l
  induction l with
  | nil => intro q h; exact Option.noConfusion h
  | cons p rest ih =>
      intro q h
      unfold maxByVersion at h
      cases hm : maxByVersion rest with
      | none =>
          rw [hm] at h
          dsimp only at h
          injection h with h
          subst h
          exact List.mem_cons_self _ _
      | some q0 =>
          rw [hm] at h
          dsimp only at h
          by_cases hv : p.version < q0.version
          · rw [if_pos hv] at h
            injection h with h
            subst h
            exact List.mem_cons_of_mem _ (ih hm)
          · rw [if_neg hv] at h
            injection h with h
            subst h
            exact List.mem_cons_self _ _

theorem maxByVersion_le : ∀ {l : List Prompt} {q : Prompt}, maxByVersion l = some q →
    ∀ r ∈ l, r.version ≤ q.version := by
  intro l
  induction l with
  | nil => intro q _ r hr; exact absurd hr (List.not_mem_nil r)
  | cons p rest ih =>
      intro q h r hr
      unfold maxByVersion at h
      cases hm : maxByVersion rest with
      | none =>
          rw [hm] at h
          dsimp only at h
          injection h with h
          subst h
          rcases List.mem_cons.mp hr with rfl | hr'
          · exact Nat.le_refl _
          · cases rest with
            | nil => exact absurd hr' (List.not_mem_nil r)
            | cons a as => exact absurd hm (maxByVersion_cons_ne_none a as)
      | some q0 =>
          rw [hm] at h
          dsimp only at h
          by_cases hv : p.version < q0.version
          · rw [if_pos hv] at h
            injection h with h
            subst h
            rcases List.mem_cons.mp hr with rfl | hr'
            · exact Nat.le_of_lt hv
            · exact ih hm r hr'
          · rw [if_neg hv] at h
            injection h with h
            subst h
            rcases List.mem_cons.mp hr with rfl | hr'
            · exact Nat.le_refl _
            · exact Nat.le_trans (ih hm r hr') (Nat.le_of_not_lt hv)

theorem latestPrompt_mem {db : DB} {name : String} {L : Prompt}
    (h : latestPrompt db name = some L) : L ∈ db.prompts ∧ L.name = name := by
  have hm := maxByVersion_mem h
  have h2 := List.mem_filter.mp hm
  exact ⟨h2.1, by simpa using h2.2⟩

theorem latestPrompt_max {db : DB} {name : String} {L : Prompt}
    (h : latestPrompt db name = some L) :
    ∀ r ∈ db.prompts, r.name = name → r.version ≤ L.version := by
  intro r hr hn
  exact maxByVersion_le h r (List.mem_filter.mpr ⟨hr, by simp [hn]⟩)

@[simp] theorem flipActive_name (name : String) (r : Prompt) :
    (flipActive name r).name = r.name := by
  unfold flipActive; split <;> rfl

@[simp] theorem flipActive_version (name : String) (r : Prompt) :
    (flipActive name r).version = r.version := by
  unfold flipActive; split <;> rfl

@[simp] theorem flipActive_template (name : String) (r : Prompt) :
    (flipActive name r).template = r.template := by
  unfold flipActive; split <;> rfl

@[simp] theorem flipActive_created_by (name : String) (r : Prompt) :
    (flipActive name r).created_by = r.created_by := by
  unfold flipActive; split <;> rfl

@[simp] theorem flipActive_is_public (name : String) (r : Prompt) :
    (flipActive name r).is_public = r.is_public := by
  unfold flipActive; split <;> rfl

@[simp] theorem isVisible_flipActive (name : String) (r : Prompt) (viewer : Nat) :
    isVisible (flipActive name r) viewer = isVisible r viewer := by
  unfold isVisible
  rw [flipActive_created_by, flipActive_is_public]

theorem get_version_eq_some {db : DB} {name : String} {v viewer : Nat} {t : Prompt}
    (h : get_version db name v viewer = some t) :
    db.prompts.find? (fun p => p.name == name && p.version == v) = some t ∧
      isVisible t viewer = true := by
  unfold get_version at h
  cases hf : db.prompts.find? (fun p => p.name == name && p.version == v) with
  | none => rw [hf] at h; exact Option.noConfusion h
  | some q =>
      rw [hf] at h
      dsimp only at h
      by_cases hv : isVisible q viewer
      · rw [if_pos hv] at h
        injection h with h
        subst h
        exact ⟨rfl, hv⟩
      · rw [if_neg hv] at h
        exact Option.noConfusion h

theorem commonPrefixLen_self (l : List String) : commonPrefixLen l l = l.length := by
  induction l with
  | nil => rfl
  | cons x xs ih => simp [commonPrefixLen, ih]

theorem unified_diff_self (l : List String) (la lb : String) : unified_diff l l la lb = "" := by
  unfold unified_diff
  simp [commonPrefixLen_self, List.drop_length]

theorem unified_diff_text_self (a la lb : String) : unified_diff_text a a la lb = "" :=
  unified_diff_self (splitlines a) la lb


/-- The row `rollback` inserts: content copied from `target`, version one past
the latest, stamped with the caller, active, inheriting the latest row's
visibility. -/
def newHead (db : DB) (name : String) (target : Prompt) (lver user_id : Nat)
    (pub : Bool) : Prompt :=
  ⟨db.nextPromptId, name, target.template, target.variable_names, lver + 1,
   user_id, true, pub⟩

/-- The store after the flip-and-append transition of `update`/`rollback`. -/
def appendHead (db : DB) (name : String) (np : Prompt) : DB :=
  { db with prompts := deactivateName db.prompts name ++ [np],
            nextPromptId := db.nextPromptId + 1 }

theorem rollback_eq (db : DB) (name : String) (target_version user_id : Nat) (L : Prompt)
    (hL : latestPrompt db name = some L) :
    rollback db name target_version user_id =
      (if L.created_by ≠ user_id then .error .permissionError
       else match get_version db name target_version user_id with
         | none => .error .lookupError
         | some target =>
           .ok (newHead db name target L.version user_id L.is_public,
             appendHead db name (newHead db name target L.version user_id L.is_public))) := by
  unfold rollback
  rw [hL]
  rfl

@[simp] theorem newHead_version (db : DB) (name : String) (target : Prompt)
    (lver u : Nat) (pub : Bool) : (newHead db name target lver u pub).version = lver + 1 := rfl

@[simp] theorem newHead_template (db : DB) (name : String) (target : Prompt)
    (lver u : Nat) (pub : Bool) :
    (newHead db name target lver u pub).template = target.template := rfl

theorem find?_nv_append (dbp : List Prompt) (name : String) (v : Nat) (np : Prompt) :
    (deactivateName dbp name ++ [np]).find? (fun p => p.name == name && p.version == v) =
      ((dbp.find? (fun p => p.name == name && p.version == v)).map (flipActive name)).or
        (List.find? (fun p => p.name == name && p.version == v) [np]) := by
  rw [List.find?_append]
  unfold deactivateName
  rw [List.find?_map]
  have heq : ((fun p : Prompt => p.name == name && p.version == v) ∘ flipActive name) =
      (fun p : Prompt => p.name == name && p.version == v) := by
    funext r
    simp [Function.comp]
  rw [heq]

/-- C5: a successful `rollback(name, v, owner)` appends a new head copying
`template`/`variables` from version `v`, so an immediate
`diff(name, v, new_head.version, owner)` on the resulting store returns the
empty diff. -/
theorem rollback_diff_empty (db : DB) (name : String) (v owner : Nat)
    (p : Prompt) (db2 : DB) (h : rollback db name v owner = .ok (p, db2)) :
    diff_versions db2 name v p.version owner = .ok "" := by
  cases hL : latestPrompt db name with
  | none =>
      unfold rollback at h
      rw [hL] at h
      exact Except.noConfusion h
  | some L =>
      rw [rollback_eq db name v owner L hL] at h
      by_cases howner : L.created_by ≠ owner
      · rw [if_pos howner] at h
        exact Except.noConfusion h
      · rw [if_neg howner] at h
        cases ht : get_version db name v owner with
        | none => rw [ht] at h; exact Except.noConfusion h
        | some target =>
          rw [ht] at h
          dsimp only at h
          injection h with h
          rw [Prod.mk.injEq] at h
          obtain ⟨hp, hdb⟩ := h
          subst hp
          subst hdb
          obtain ⟨hfind, hvis⟩ := get_version_eq_some ht
          have hpred := List.find?_some hfind
          simp only [Bool.and_eq_true, beq_iff_eq] at hpred
          obtain ⟨htn, htv⟩ := hpred
          have hfind2 : db.prompts.find?
              (fun p => p.name == name && p.version == L.version + 1) = none := by
            rw [List.find?_eq_none]
            intro r hr
            simp only [Bool.and_eq_true, beq_iff_eq, not_and]
            intro hrn
            have := latestPrompt_max hL r hr hrn
            omega
          have hga : get_version
              (appendHead db name (newHead db name target L.version owner L.is_public))
              name v owner = some (flipActive name target) := by
            unfold get_version appendHead
            dsimp only
            rw [find?_nv_append, hfind]
            simp [hvis]
          have hgb : get_version
              (appendHead db name (newHead db name target L.version owner L.is_public))
              name (L.version + 1) owner =
              some (newHead db name target L.version owner L.is_public) := by
            unfold get_version appendHead
            dsimp only
            rw [find?_nv_append, hfind2]
            simp [isVisible, newHead]
          unfold diff_versions
          rw [newHead_version, hga, hgb]
          dsimp only
          rw [flipActive_template, newHead_template, unified_diff_text_self]

def dbC5 : DB := ⟨[⟨0, "g", "A", [], 1, 5, false, false⟩, ⟨1, "g", "B", [], 2, 5, true, false⟩],
  [], [], [], [], 2, 0⟩

def dbC5r : DB := ⟨[⟨0, "g", "A", [], 1, 5, false, false⟩, ⟨1, "g", "B", [], 2, 5, false, false⟩,
  ⟨2, "g", "A", [], 3, 5, true, false⟩], [], [], [], [], 3, 0⟩

/-- C5 witness: rolling `"g"` back to version 1 creates head version 3 with
version 1's content, and the immediate diff of versions 1 and 3 is empty. -/
theorem rollback_diff_empty_witness :
    diff_versions dbC5r "g" 1 3 5 = .ok "" :=
  rollback_diff_empty dbC5 "g" 1 5 ⟨2, "g", "A", [], 3, 5, true, false⟩ dbC5r rfl

/-! ## Claim C3: the per-name version chain -/

def createdRow (db : DB) (user : Nat) (payload : PromptCreate) : Prompt :=
  ⟨db.nextPromptId, payload.name, payload.template, payload.variable_names, 1,
   user, true, payload.is_public⟩

def appendNew (db : DB) (p : Prompt) : DB :=
  { db with prompts := db.prompts ++ [p], nextPromptId := db.nextPromptId + 1 }

theorem create_prompt_eq (db : DB) (user : Nat) (payload : PromptCreate) :
    create_prompt db user payload =
      (if db.prompts.any (fun p => p.name == payload.name) = true then .error .valueError
       else .ok (createdRow db user payload, appendNew db (createdRow db user payload))) :=
  rfl

def updHead (db : DB) (name : String) (payload : PromptUpdate) (lver user_id : Nat)
    (pub : Bool) : Prompt :=
  ⟨db.nextPromptId, name, payload.template, payload.variable_names, lver + 1,
   user_id, true, pub⟩

theorem update_prompt_eq (db : DB) (name : String) (user_id : Nat) (payload : PromptUpdate)
    (L : Prompt) (hL : latestPrompt db name = some L) :
    update_prompt db name user_id payload =
      (if L.created_by ≠ user_id then .error .permissionError
       else .ok (updHead db name payload L.version user_id L.is_public,
         appendHead db name (updHead db name payload L.version user_id L.is_public))) := by
  unfold update_prompt
  rw [hL]
  rfl

theorem promptsOf_appendHead (db : DB) (name : String) (np : Prompt) (hn : np.name = name) :
    promptsOf (appendHead db name np) name =
      (promptsOf db name).map (flipActive name) ++ [np] := by
  unfold promptsOf appendHead deactivateName
  dsimp only
  rw [List.filter_append, List.filter_map]
  have heq : ((fun p : Prompt => p.name == name) ∘ flipActive name) =
      (fun p : Prompt => p.name == name) := by
    funext r
    simp [Function.comp]
  rw [heq]
  congr 1
  simp [hn]

theorem map_version_flip (l : List Prompt) (name : String) :
    (l.map (flipActive name)).map (fun r => r.version) = l.map (fun r => r.version) := by
  rw [List.map_map]
  apply List.map_congr_left
  intro r _
  simp [Function.comp]

theorem flipActive_inactive (name : String) (r : Prompt) (hn : r.name = name) :
    (flipActive name r).active = false := by
  unfold flipActive
  cases hr : r.active
  · rw [if_neg (by simp [hr])]
    exact hr
  · rw [if_pos (by simp [hn, hr])]

theorem latest_of_chain (db : DB) (name : String) (k : Nat)
    (hperm : ((promptsOf db name).map (fun r => r.version)).Perm (List.range' 1 (k + 1))) :
    ∃ L, latestPrompt db name = some L ∧ L.version = k + 1 := by
  have hlen : (promptsOf db name).length = k + 1 := by
    have := hperm.length_eq
    simpa using this
  cases hl : promptsOf db name with
  | nil => rw [hl] at hlen; simp at hlen
  | cons a as =>
      obtain ⟨L, hL⟩ : ∃ L, maxByVersion (a :: as) = some L := by
        cases hm : maxByVersion (a :: as) with
        | none => exact absurd hm (maxByVersion_cons_ne_none a as)
        | some L => exact ⟨L, rfl⟩
      have hmem : L ∈ promptsOf db name := by rw [hl]; exact maxByVersion_mem hL
      have hmax : ∀ r ∈ promptsOf db name, r.version ≤ L.version := by
        rw [hl]; exact maxByVersion_le hL
      have h1 : L.version ∈ List.range' 1 (k + 1) :=
        hperm.mem_iff.mp (List.mem_map_of_mem _ hmem)
      have h2 : k + 1 ∈ (promptsOf db name).map (fun r => r.version) :=
        hperm.mem_iff.mpr (by rw [List.mem_range']; exact ⟨k, by omega, by omega⟩)
      obtain ⟨r, hrmem, hrv⟩ := List.mem_map.mp h2
      have hub : L.version ≤ k + 1 := by
        rw [List.mem_range'] at h1
        obtain ⟨i, hi, he⟩ := h1
        omega
      have hlb : k + 1 ≤ L.version := hrv ▸ hmax r hrmem
      refine ⟨L, ?_, by omega⟩
      unfold latestPrompt
      rw [hl]
      exact hL

theorem step_preserves (db : DB) (name : String) (np : Prompt) (k : Nat)
    (hperm : ((promptsOf db name).map (fun r => r.version)).Perm (List.range' 1 (k + 1)))
    (_hiff : ∀ r ∈ promptsOf db name, r.active = true ↔ r.version = k + 1)
    (hn : np.name = name) (hv : np.version = k + 2) (ha : np.active = true) :
    ((promptsOf (appendHead db name np) name).map (fun r => r.version)).Perm
      (List.range' 1 (k + 2)) ∧
    ∀ r ∈ promptsOf (appendHead db name np) name, r.active = true ↔ r.version = k + 2 := by
  rw [promptsOf_appendHead db name np hn]
  constructor
  · rw [List.map_append, map_version_flip]
    have hr : List.range' 1 (k + 2) = List.range' 1 (k + 1) ++ [k + 2] := by
      have h12 : 1 + (k + 1) = k + 2 := by omega
      rw [List.range'_1_concat, h12]
    rw [hr]
    exact hperm.append (by simp [hv])
  · intro r hr
    rcases List.mem_append.mp hr with hr1 | hr2
    · obtain ⟨r0, hr0, rfl⟩ := List.mem_map.mp hr1
      have hr0n : r0.name = name := by
        have := List.mem_filter.mp hr0
        simpa using this.2
      constructor
      · intro hact
        rw [flipActive_inactive name r0 hr0n] at hact
        exact Bool.noConfusion hact
      · intro hver
        rw [flipActive_version] at hver
        have hmem : r0.version ∈ List.range' 1 (k + 1) :=
          hperm.mem_iff.mp (List.mem_map_of_mem _ hr0)
        rw [List.mem_range'] at hmem
        obtain ⟨i, hi, he⟩ := hmem
        omega
    · rw [List.mem_singleton.mp hr2]
      exact ⟨fun _ => hv, fun _ => ha⟩

theorem filter_active_length {l : List Prompt} {k : Nat}
    (hperm : (l.map (fun r => r.version)).Perm (List.range' 1 (k + 1)))
    (hiff : ∀ r ∈ l, r.active = true ↔ r.version = k + 1) :
    (l.filter (fun r => r.active)).length = 1 := by
  have h1 : l.filter (fun r => r.active) = l.filter (fun r => r.version == k + 1) := by
    apply List.filter_congr
    intro r hr
    cases ha : r.active
    · have hne : ¬ r.version = k + 1 := fun hv => by
        have hcontra := (hiff r hr).mpr hv
        rw [ha] at hcontra
        exact Bool.noConfusion hcontra
      simp [hne]
    · simp [(hiff r hr).mp ha]
  rw [h1, ← List.countP_eq_length_filter]
  have h2 : List.countP (fun r : Prompt => r.version == k + 1) l =
      List.countP (fun v : Nat => v == k + 1) (l.map (fun r => r.version)) := by
    rw [List.countP_map]
    rfl
  rw [h2, ← List.count_eq_countP, hperm.count_eq]
  exact List.count_eq_one_of_mem (List.nodup_range' 1 (k + 1))
    (by rw [List.mem_range']; exact ⟨k, by omega, by omega⟩)

/-- The states reachable from a successful `create(name, …)` by a sequence of
`N` successful `update`/`rollback` calls on that name. -/
inductive ChainN (name : String) : Nat → DB → Prop where
  | created (db0 : DB) (user : Nat) (payload : PromptCreate) (p : Prompt) (db1 : DB) :
      payload.name = name → create_prompt db0 user payload = .ok (p, db1) →
      ChainN name 0 db1
  | updated {n : Nat} {db : DB} (user : Nat) (payload : PromptUpdate) (p : Prompt)
      (db' : DB) : ChainN name n db → update_prompt db name user payload = .ok (p, db') →
      ChainN name (n + 1) db'
  | rolledBack {n : Nat} {db : DB} (user tv : Nat) (p : Prompt) (db' : DB) :
      ChainN name n db → rollback db name tv user = .ok (p, db') →
      ChainN name (n + 1) db'

/-- C3: starting from `create(name, …)` (version 1, active), after any `N`
successful `update`/`rollback` calls on `name` the stored versions of `name`
are exactly `1..N+1`, a row is active exactly when it is the newly inserted
head of version `N+1`, and exactly one row of the name is active. -/
theorem chain_invariant (name : String) (N : Nat) (db : DB) (h : ChainN name N db) :
    ((promptsOf db name).map (fun r => r.version)).Perm (List.range' 1 (N + 1)) ∧
    (∀ r ∈ promptsOf db name, r.active = true ↔ r.version = N + 1) ∧
    ((promptsOf db name).filter (fun r => r.active)).length = 1 := by
  have main : ((promptsOf db name).map (fun r => r.version)).Perm (List.range' 1 (N + 1)) ∧
      ∀ r ∈ promptsOf db name, r.active = true ↔ r.version = N + 1 := by
    induction h with
    | created db0 user payload p db1 hn hc =>
        rw [create_prompt_eq] at hc
        by_cases hany : db0.prompts.any (fun q => q.name == payload.name) = true
        · rw [if_pos hany] at hc
          exact Except.noConfusion hc
        · rw [if_neg hany] at hc
          injection hc with hc
          rw [Prod.mk.injEq] at hc
          obtain ⟨hp, hdb⟩ := hc
          subst hdb
          subst hn
          have hany' : db0.prompts.any (fun q => q.name == payload.name) = false := by
            cases hq : db0.prompts.any (fun q => q.name == payload.name)
            · rfl
            · exact absurd hq hany
          have hpm : promptsOf (appendNew db0 (createdRow db0 user payload)) payload.name =
              [createdRow db0 user payload] := by
            unfold promptsOf appendNew
            dsimp only
            rw [List.filter_append]
            have h0 : db0.prompts.filter (fun q => q.name == payload.name) = [] := by
              rw [List.filter_eq_nil_iff]
              intro a ha
              exact fun hb => (List.any_eq_false.mp hany') a ha hb
            rw [h0]
            simp [createdRow]
          rw [hpm]
          refine ⟨List.Perm.refl _, ?_⟩
          intro r hr
          rw [List.mem_singleton.mp hr]
          exact ⟨fun _ => rfl, fun _ => rfl⟩
    | updated user payload p db' hch hupd ih =>
        obtain ⟨hperm, hiff⟩ := ih
        obtain ⟨L, hL, hLv⟩ := latest_of_chain _ _ _ hperm
        rw [update_prompt_eq _ _ _ _ L hL] at hupd
        by_cases how : L.created_by ≠ user
        · rw [if_pos how] at hupd
          exact Except.noConfusion hupd
        · rw [if_neg how] at hupd
          injection hupd with hupd
          rw [Prod.mk.injEq] at hupd
          obtain ⟨hp, hdb⟩ := hupd
          subst hdb
          exact step_preserves _ _ _ _ hperm hiff rfl (by simp [updHead, hLv]) rfl
    | rolledBack user tv p db' hch hrb ih =>
        obtain ⟨hperm, hiff⟩ := ih
        obtain ⟨L, hL, hLv⟩ := latest_of_chain _ _ _ hperm
        rw [rollback_eq _ _ _ _ L hL] at hrb
        by_cases how : L.created_by ≠ user
        · rw [if_pos how] at hrb
          exact Except.noConfusion hrb
        · rw [if_neg how] at hrb
          cases ht : get_version _ _ tv user with
          | none => rw [ht] at hrb; exact Except.noConfusion hrb
          | some target =>
              rw [ht] at hrb
              dsimp only at hrb
              injection hrb with hrb
              rw [Prod.mk.injEq] at hrb
              obtain ⟨hp, hdb⟩ := hrb
              subst hdb
              exact step_preserves _ _ _ _ hperm hiff rfl (by simp [newHead, hLv]) rfl
  exact ⟨main.1, main.2, filter_active_length main.1 main.2⟩

def dbC3 : DB := ⟨[⟨0, "greet", "A", [], 1, 5, false, false⟩,
  ⟨1, "greet", "B", [], 2, 5, true, false⟩], [], [], [], [], 2, 0⟩

/-- C3 witness: after `create "greet"` and one `update` (N = 1), the stored
versions of `"greet"` are a permutation of `1..2` and exactly one row is
active. -/
theorem chain_invariant_witness :
    ((promptsOf dbC3 "greet").map (fun r => r.version)).Perm (List.range' 1 2) ∧
    ((promptsOf dbC3 "greet").filter (fun r => r.active)).length = 1 :=
  have h := chain_invariant "greet" 1 dbC3
    (ChainN.updated 5 ⟨"B", []⟩ ⟨1, "greet", "B", [], 2, 5, true, false⟩ dbC3
      (ChainN.created emptyDB 5 ⟨"greet", "A", [], false⟩
        ⟨0, "greet", "A", [], 1, 5, true, false⟩
        ⟨[⟨0, "greet", "A", [], 1, 5, true, false⟩], [], [], [], [], 1, 0⟩ rfl rfl) rfl)
  ⟨h.1, h.2.2⟩

/-! ## Claim C10: one creator per name -/

theorem generate_unique_name_free {db : DB} {base u : String}
    (h : generate_unique_name db base = some u) : nameTaken db u = false := by
  unfold generate_unique_name at h
  have hp := List.find?_some h
  cases hn : nameTaken db u
  · rfl
  · rw [hn] at hp
    exact Bool.noConfusion hp

theorem create_prompt_inv {db : DB} {user : Nat} {payload : PromptCreate}
    {p : Prompt} {db' : DB} (h : create_prompt db user payload = .ok (p, db')) :
    nameTaken db p.name = false ∧ db' = appendNew db p := by
  rw [create_prompt_eq] at h
  by_cases hany : db.prompts.any (fun q => q.name == payload.name) = true
  · rw [if_pos hany] at h
    exact Except.noConfusion h
  · rw [if_neg hany] at h
    injection h with h
    rw [Prod.mk.injEq] at h
    obtain ⟨hp, hdb⟩ := h
    subst hp
    subst hdb
    refine ⟨?_, rfl⟩
    unfold nameTaken createdRow
    dsimp only
    cases hq : db.prompts.any (fun q => q.name == payload.name)
    · rfl
    · exact absurd hq hany

theorem update_prompt_inv {db : DB} {name : String} {user : Nat} {payload : PromptUpdate}
    {p : Prompt} {db' : DB} (h : update_prompt db name user payload = .ok (p, db')) :
    ∃ L, latestPrompt db name = some L ∧ L.created_by = user ∧
      p.name = name ∧ p.created_by = user ∧ db' = appendHead db name p := by
  cases hL : latestPrompt db name with
  | none =>
      unfold update_prompt at h
      rw [hL] at h
      exact Except.noConfusion h
  | some L =>
      rw [update_prompt_eq _ _ _ _ L hL] at h
      by_cases how : L.created_by ≠ user
      · rw [if_pos how] at h
        exact Except.noConfusion h
      · rw [if_neg how] at h
        injection h with h
        rw [Prod.mk.injEq] at h
        obtain ⟨hp, hdb⟩ := h
        subst hp
        subst hdb
        exact ⟨L, rfl, not_not.mp how, rfl, rfl, rfl⟩

theorem rollback_inv {db : DB} {name : String} {tv user : Nat}
    {p : Prompt} {db' : DB} (h : rollback db name tv user = .ok (p, db')) :
    ∃ L, latestPrompt db name = some L ∧ L.created_by = user ∧
      p.name = name ∧ p.created_by = user ∧ db' = appendHead db name p := by
  cases hL : latestPrompt db name with
  | none =>
      unfold rollback at h
      rw [hL] at h
      exact Except.noConfusion h
  | some L =>
      rw [rollback_eq _ _ _ _ L hL] at h
      by_cases how : L.created_by ≠ user
      · rw [if_pos how] at h
        exact Except.noConfusion h
      · rw [if_neg how] at h
        cases ht : get_version db name tv user with
        | none => rw [ht] at h; exact Except.noConfusion h
        | some target =>
            rw [ht] at h
            dsimp only at h
            injection h with h
            rw [Prod.mk.injEq] at h
            obtain ⟨hp, hdb⟩ := h
            subst hp
            subst hdb
            exact ⟨L, rfl, not_not.mp how, rfl, rfl, rfl⟩

theorem clone_prompt_inv {db : DB} {sn : String} {viewer : Nat} {nn : Option String}
    {p : Prompt} {db' : DB} (h : clone_prompt db sn viewer nn = .ok (p, db')) :
    nameTaken db p.name = false ∧ p.created_by = viewer ∧ db' = appendNew db p := by
  unfold clone_prompt at h
  cases hL : latestPrompt db sn with
  | none => rw [hL] at h; exact Except.noConfusion h
  | some src =>
      rw [hL] at h
      dsimp only at h
      by_cases hv : (!isVisible src viewer) = true
      · rw [if_pos hv] at h
        exact Except.noConfusion h
      · rw [if_neg hv] at h
        cases hg : generate_unique_name db (cloneBaseName src.name nn) with
        | none => rw [hg] at h; exact Except.noConfusion h
        | some u =>
            rw [hg] at h
            dsimp only at h
            injection h with h
            rw [Prod.mk.injEq] at h
            obtain ⟨hp, hdb⟩ := h
            subst hp
            subst hdb
            exact ⟨generate_unique_name_free hg, rfl, rfl⟩

/-- The states reachable from the empty store through successful `create`,
`update`, `rollback` and `clone` calls. -/
inductive Reach : DB → Prop where
  | empty : Reach emptyDB
  | created {db : DB} (user : Nat) (payload : PromptCreate) (p : Prompt) (db' : DB) :
      Reach db → create_prompt db user payload = .ok (p, db') → Reach db'
  | updated {db : DB} (name : String) (user : Nat) (payload : PromptUpdate)
      (p : Prompt) (db' : DB) :
      Reach db → update_prompt db name user payload = .ok (p, db') → Reach db'
  | rolledBack {db : DB} (name : String) (user tv : Nat) (p : Prompt) (db' : DB) :
      Reach db → rollback db name tv user = .ok (p, db') → Reach db'
  | cloned {db : DB} (source_name : String) (viewer : Nat) (nn : Option String)
      (p : Prompt) (db' : DB) :
      Reach db → clone_prompt db source_name viewer nn = .ok (p, db') → Reach db'

/-- C10: in every store reachable through `create`, `update`, `rollback` and
`clone`, any two version rows sharing a name have the same `created_by` —
update and rollback only proceed for the latest row's creator and stamp the
new row with that caller, and fresh names (create, clone) start their own
chain — so the ownership check against the latest row is a check against the
name's original creator. -/
theorem creator_invariant (db : DB) (h : Reach db) :
    ∀ r ∈ db.prompts, ∀ s ∈ db.prompts, r.name = s.name →
      r.created_by = s.created_by := by
  induction h with
  | empty =>
      intro r hr
      exact absurd hr (List.not_mem_nil r)
  | created user payload p db' _ hc ih =>
      rename_i db0 hre0
      obtain ⟨hfree, hdb⟩ := create_prompt_inv hc
      subst hdb
      intro r hr s hs hname
      have hfree2 : ∀ q ∈ db0.prompts, ¬ q.name = p.name := by
        simpa [nameTaken] using hfree
      rcases List.mem_append.mp hr with hr | hr <;>
        rcases List.mem_append.mp hs with hs | hs
      · exact ih r hr s hs hname
      · rw [List.mem_singleton.mp hs] at hname
        exact absurd hname (hfree2 r hr)
      · rw [List.mem_singleton.mp hr] at hname
        exact absurd hname.symm (hfree2 s hs)
      · rw [List.mem_singleton.mp hr, List.mem_singleton.mp hs]
  | updated name user payload p db' _ hupd ih =>
      obtain ⟨L, hL, hLo, hpn, hpc, hdb⟩ := update_prompt_inv hupd
      subst hdb
      obtain ⟨hLmem, hLname⟩ := latestPrompt_mem hL
      intro r hr s hs hname
      rcases List.mem_append.mp hr with hr | hr <;>
        rcases List.mem_append.mp hs with hs | hs
      · obtain ⟨r0, hr0, rfl⟩ := List.mem_map.mp hr
        obtain ⟨s0, hs0, rfl⟩ := List.mem_map.mp hs
        rw [flipActive_created_by, flipActive_created_by]
        exact ih r0 hr0 s0 hs0 (by simpa using hname)
      · obtain ⟨r0, hr0, rfl⟩ := List.mem_map.mp hr
        rw [List.mem_singleton.mp hs] at hname ⊢
        rw [flipActive_created_by, flipActive_name] at *
        rw [hpc]
        rw [← hLo]
        exact ih r0 hr0 L hLmem (by rw [hname, hpn, hLname])
      · obtain ⟨s0, hs0, rfl⟩ := List.mem_map.mp hs
        rw [List.mem_singleton.mp hr] at hname ⊢
        rw [flipActive_created_by, flipActive_name] at *
        rw [hpc]
        rw [← hLo]
        exact (ih s0 hs0 L hLmem (by rw [← hname, hpn, hLname])).symm
      · rw [List.mem_singleton.mp hr, List.mem_singleton.mp hs]
  | rolledBack name user tv p db' _ hrb ih =>
      obtain ⟨L, hL, hLo, hpn, hpc, hdb⟩ := rollback_inv hrb
      subst hdb
      obtain ⟨hLmem, hLname⟩ := latestPrompt_mem hL
      intro r hr s hs hname
      rcases List.mem_append.mp hr with hr | hr <;>
        rcases List.mem_append.mp hs with hs | hs
      · obtain ⟨r0, hr0, rfl⟩ := List.mem_map.mp hr
        obtain ⟨s0, hs0, rfl⟩ := List.mem_map.mp hs
        rw [flipActive_created_by, flipActive_created_by]
        exact ih r0 hr0 s0 hs0 (by simpa using hname)
      · obtain ⟨r0, hr0, rfl⟩ := List.mem_map.mp hr
        rw [List.mem_singleton.mp hs] at hname ⊢
        rw [flipActive_created_by, flipActive_name] at *
        rw [hpc]
        rw [← hLo]
        exact ih r0 hr0 L hLmem (by rw [hname, hpn, hLname])
      · obtain ⟨s0, hs0, rfl⟩ := List.mem_map.mp hs
        rw [List.mem_singleton.mp hr] at hname ⊢
        rw [flipActive_created_by, flipActive_name] at *
        rw [hpc]
        rw [← hLo]
        exact (ih s0 hs0 L hLmem (by rw [← hname, hpn, hLname])).symm
      · rw [List.mem_singleton.mp hr, List.mem_singleton.mp hs]
  | cloned source_name viewer nn p db' _ hcl ih =>
      rename_i db0 hre0
      obtain ⟨hfree, hpc, hdb⟩ := clone_prompt_inv hcl
      subst hdb
      intro r hr s hs hname
      have hfree2 : ∀ q ∈ db0.prompts, ¬ q.name = p.name := by
        simpa [nameTaken] using hfree
      rcases List.mem_append.mp hr with hr | hr <;>
        rcases List.mem_append.mp hs with hs | hs
      · exact ih r hr s hs hname
      · rw [List.mem_singleton.mp hs] at hname
        exact absurd hname (hfree2 r hr)
      · rw [List.mem_singleton.mp hr] at hname
        exact absurd hname.symm (hfree2 s hs)
      · rw [List.mem_singleton.mp hr, List.mem_singleton.mp hs]

def dbC10 : DB := ⟨[⟨0, "greet", "A", [], 1, 5, false, false⟩,
  ⟨1, "greet", "B", [], 2, 5, true, false⟩], [], [], [], [], 2, 0⟩

/-- C10 witness: in the store reached by `create "greet"` (user 5) then
`update`, the two rows of `"greet"` carry the same creator. -/
theorem creator_invariant_witness :
    (⟨0, "greet", "A", [], 1, 5, false, false⟩ : Prompt).created_by =
      (⟨1, "greet", "B", [], 2, 5, true, false⟩ : Prompt).created_by :=
  creator_invariant dbC10
    (Reach.updated "greet" 5 ⟨"B", []⟩ ⟨1, "greet", "B", [], 2, 5, true, false⟩ dbC10
      (Reach.created 5 ⟨"greet", "A", [], false⟩ ⟨0, "greet", "A", [], 1, 5, true, false⟩
        ⟨[⟨0, "greet", "A", [], 1, 5, true, false⟩], [], [], [], [], 1, 0⟩
        Reach.empty rfl) rfl)
    ⟨0, "greet", "A", [], 1, 5, false, false⟩ (by decide)
    ⟨1, "greet", "B", [], 2, 5, true, false⟩ (by decide) rfl
